import Mathlib

/-!
Verification of the record-resolution and merge engine of the
eppley-collector repository, as implemented in `src/merge-publications.py`
(identity resolution, field merging, provenance and source tracking),
together with the DOI normalizer `norm_doi` of `src/tools/merge_master.py`.

The Python code is shallowly embedded: dict-valued rows become a fixed-shape
`RawRecord` of strings (Python's `rec.get(k) or ...` chains become `pyOr`
chains, with the empty string standing for an absent field), the mutable
`canon` OrderedDict becomes an insertion-ordered association list, and the
external RapidFuzz scorer (`fuzz.token_sort_ratio` via `process.extractOne`)
becomes an explicit scorer parameter; `extractOne` itself is modelled as the
first-best-scoring search it performs.  A second family of definitions
(`extractOneE`, `addE`, ...) embeds the same code with a fallible scorer in
the `Except` monad, reflecting that the Python call sites have no
`try`/`except` and therefore propagate scorer exceptions.
-/

namespace Eppley

/-- Python `a or b` on strings: `a` unless it is empty (falsy). -/
def pyOr (a b : String) : String := if a = "" then b else a

/-- Python's whitespace class (`str.strip` and the regex `\s`):
space, tab, newline, carriage return, form feed, vertical tab. -/
def isPySpace (c : Char) : Bool :=
  c = ' ' ∨ c = '\t' ∨ c = '\n' ∨ c = '\r' ∨ c = '\x0c' ∨ c = '\x0b'

/-- Python `str.strip()`: drop leading and trailing whitespace. -/
def trimStr (s : String) : String :=
  ⟨((s.data.dropWhile isPySpace).reverse.dropWhile isPySpace).reverse⟩

/-- Python `str.lower()` (characterwise lowering, as `.lower()` does on the
ASCII identifiers handled here). -/
def lowerStr (s : String) : String := ⟨s.data.map Char.toLower⟩

/-- Collapse every maximal run of whitespace characters to a single space
(the effect of `re.sub(r"\s+", " ", ·)`); the Bool records whether we are
inside a whitespace run. -/
def collapseWSAux : List Char → Bool → List Char
  | [], _ => []
  | c :: cs, inWS =>
    if isPySpace c then
      if inWS then collapseWSAux cs true else ' ' :: collapseWSAux cs true
    else c :: collapseWSAux cs false

def collapseWS (s : String) : String := ⟨collapseWSAux s.data false⟩

/-- `norm` from merge-publications.py line 21:
`re.sub(r"\s+", " ", (s or "").strip().lower())`. -/
def norm (s : String) : String := collapseWS (lowerStr (trimStr s))

/-- The DOI URL forms covered by merge_master.py's regex
`^https?://(dx\.)?doi\.org/` (case-insensitive). -/
def doiUrlForms : List String :=
  ["https://doi.org/", "http://doi.org/", "https://dx.doi.org/", "http://dx.doi.org/"]

/-- Strip a leading DOI URL form, case-insensitively (the `re.sub` with the
anchored pattern above removes at most one leading match). -/
def stripDoiUrl (s : String) : String :=
  match doiUrlForms.find? (fun p => p.data.isPrefixOf (lowerStr s).data) with
  | some p => ⟨s.data.drop p.data.length⟩
  | none => s

/-- `norm_doi` from src/tools/merge_master.py lines 38-41:
trim, strip any DOI URL prefix, lowercase. -/
def norm_doi (val : String) : String := lowerStr (stripDoiUrl (trimStr val))

/-- Source precedence weights from merge-publications.py line 74:
`{"pubmed":5,"openalex":4,"semanticscholar":3,"crossref":2,"orcid":1}.get(src,0)`. -/
def weight (src : String) : Nat :=
  if src = "pubmed" then 5
  else if src = "openalex" then 4
  else if src = "semanticscholar" then 3
  else if src = "crossref" then 2
  else if src = "orcid" then 1
  else 0

/-- The configured harvest order of sources (merge-publications.py line 100). -/
def sourceOrder : List String :=
  ["pubmed", "openalex", "semanticscholar", "crossref", "orcid"]

/-- Median of a list of naturals (middle element of the sorted list). -/
def medianNat (l : List Nat) : Nat :=
  (List.insertionSort (· ≤ ·) l).getD (l.length / 2) 0

/-- One raw CSV row, as consumed by `add`.  Each recognized field is a
string; the empty string stands for a missing field (Python `rec.get`
returning `None`/`""` behaves identically under the `or`-chains used). -/
structure RawRecord where
  doi : String
  DOI : String
  pmid : String
  put_code : String
  title : String
  Title : String
  url : String
  URL : String
  journal : String
  container : String
  venue : String
  authors : String
  year : String
  publication_year : String
deriving DecidableEq

/-- The all-empty raw row. -/
def blankRaw : RawRecord := ⟨"", "", "", "", "", "", "", "", "", "", "", "", "", ""⟩

/-- The semantic fields of a canonical record manipulated by `set_field`. -/
inductive Field
  | title | doi | pmid | url | journal | venue | authors | year
deriving DecidableEq

/-- Whether `set_field` treats the field as free text, i.e. the Python test
`field in ("title","journal","venue","authors")`. -/
def isFreeText : Field → Bool
  | .title | .journal | .venue | .authors => true
  | _ => false

/-- The accumulator dict built by `add` (merge-publications.py lines 64-70). -/
structure CanonRecord where
  key : String
  title : String
  year : String
  journal : String
  venue : String
  authors : String
  doi : String
  pmid : String
  url : String
  sources : List String
  provenance : List (Field × String)
deriving DecidableEq

def CanonRecord.get (r : CanonRecord) : Field → String
  | .title => r.title
  | .doi => r.doi
  | .pmid => r.pmid
  | .url => r.url
  | .journal => r.journal
  | .venue => r.venue
  | .authors => r.authors
  | .year => r.year

def CanonRecord.set (r : CanonRecord) (f : Field) (v : String) : CanonRecord :=
  match f with
  | .title => ⟨r.key, v, r.year, r.journal, r.venue, r.authors, r.doi, r.pmid, r.url, r.sources, r.provenance⟩
  | .year => ⟨r.key, r.title, v, r.journal, r.venue, r.authors, r.doi, r.pmid, r.url, r.sources, r.provenance⟩
  | .journal => ⟨r.key, r.title, r.year, v, r.venue, r.authors, r.doi, r.pmid, r.url, r.sources, r.provenance⟩
  | .venue => ⟨r.key, r.title, r.year, r.journal, v, r.authors, r.doi, r.pmid, r.url, r.sources, r.provenance⟩
  | .authors => ⟨r.key, r.title, r.year, r.journal, r.venue, v, r.doi, r.pmid, r.url, r.sources, r.provenance⟩
  | .doi => ⟨r.key, r.title, r.year, r.journal, r.venue, r.authors, v, r.pmid, r.url, r.sources, r.provenance⟩
  | .pmid => ⟨r.key, r.title, r.year, r.journal, r.venue, r.authors, r.doi, v, r.url, r.sources, r.provenance⟩
  | .url => ⟨r.key, r.title, r.year, r.journal, r.venue, r.authors, r.doi, r.pmid, v, r.sources, r.provenance⟩

/-- Association-list lookup (dict `get`). -/
def findA {κ α : Type} [DecidableEq κ] (k : κ) : List (κ × α) → Option α
  | [] => none
  | (k', v) :: rest => if k' = k then some v else findA k rest

/-- Association-list update (dict assignment `d[k] = v`): replaces in place
when the key is present, appends otherwise (insertion-ordered dict). -/
def setA {κ α : Type} [DecidableEq κ] (k : κ) (v : α) : List (κ × α) → List (κ × α)
  | [] => [(k, v)]
  | (k', v') :: rest => if k' = k then (k, v) :: rest else (k', v') :: setA k v rest

/-- Write the provenance entry for a field (`base["provenance"][field] = src`). -/
def CanonRecord.setProv (r : CanonRecord) (f : Field) (src : String) : CanonRecord :=
  ⟨r.key, r.title, r.year, r.journal, r.venue, r.authors, r.doi, r.pmid, r.url,
   r.sources, setA f src r.provenance⟩

/-- Replace the sources component. -/
def CanonRecord.withSources (r : CanonRecord) (s : List String) : CanonRecord :=
  ⟨r.key, r.title, r.year, r.journal, r.venue, r.authors, r.doi, r.pmid, r.url,
   s, r.provenance⟩

/-- Python `set.add`: sets are modelled as duplicate-free insertion lists. -/
def addSource (src : String) (l : List String) : List String :=
  if src ∈ l then l else l ++ [src]

/-- The normalized `doi` computed by `add` (line 42):
`(rec.get("doi") or rec.get("DOI") or "").lower().strip()`.
Note: lowercase and trim only, no URL-prefix stripping. -/
def normDoiField (rec : RawRecord) : String :=
  trimStr (lowerStr (pyOr rec.doi (pyOr rec.DOI "")))

/-- `(rec.get("pmid") or "").strip()` (line 43). -/
def pmidField (rec : RawRecord) : String := trimStr (pyOr rec.pmid "")

/-- `(rec.get("put_code") or "").strip()` (line 44). -/
def putCodeField (rec : RawRecord) : String := trimStr (pyOr rec.put_code "")

/-- `rec.get("title") or rec.get("Title") or ""` (line 45). -/
def titleField (rec : RawRecord) : String := pyOr rec.title (pyOr rec.Title "")

/-- `rec.get("url") or rec.get("URL","")` (lines 67 and 90). -/
def urlField (rec : RawRecord) : String := pyOr rec.url (pyOr rec.URL "")

/-- `rec.get("journal") or rec.get("container") or rec.get("venue") or ""`. -/
def journalField (rec : RawRecord) : String :=
  pyOr rec.journal (pyOr rec.container (pyOr rec.venue ""))

/-- `rec.get("venue") or rec.get("container") or ""`. -/
def venueField (rec : RawRecord) : String := pyOr rec.venue (pyOr rec.container "")

/-- `rec.get("authors") or ""`. -/
def authorsField (rec : RawRecord) : String := pyOr rec.authors ""

/-- `rec.get("year") or rec.get("publication_year") or ""`. -/
def yearField (rec : RawRecord) : String := pyOr rec.year (pyOr rec.publication_year "")

/-- The in-run state: the `canon` OrderedDict (key → record, in insertion
order) and the `titles` list of (normalized title, key) pairs for
fuzzy-minted keys. -/
structure MergeState where
  canon : List (String × CanonRecord)
  titles : List (String × String)
deriving DecidableEq

def emptyState : MergeState := ⟨[], []⟩

/-- Model of RapidFuzz `process.extractOne`: scan the remaining choices,
keeping the best (score, index); on ties the earlier index is kept. -/
def extractOneAux (scorer : String → String → Nat) (q : String) :
    List String → Nat → Nat × Nat → Nat × Nat
  | [], _, best => best
  | c :: cs, i, best =>
    if scorer q c > best.1 then extractOneAux scorer q cs (i + 1) (scorer q c, i)
    else extractOneAux scorer q cs (i + 1) best

/-- `process.extractOne(q, choices, scorer=...)` as (best score, its index). -/
def extractOne (scorer : String → String → Nat) (q : String) :
    List String → Option (Nat × Nat)
  | [] => none
  | c :: cs => some (extractOneAux scorer q cs 1 (scorer q c, 0))

/-- The fuzzy branch of `add` (lines 56-59): when `titles` is nonempty,
reuse the best-scoring prior fuzzy key iff its score is at least 92. -/
def fuzzyResolve (scorer : String → String → Nat)
    (titles : List (String × String)) (q : String) : Option String :=
  match titles with
  | [] => none
  | _ :: _ =>
    match extractOne scorer q (titles.map Prod.fst) with
    | some (score, idx) =>
      if 92 ≤ score then some ((titles.getD idx ("", "")).2) else none
    | none => none

/-- The identity-resolution chain of `add` (lines 48-59); `none` means no
key was found and a fresh fuzzy key will be minted. -/
def resolveKey (scorer : String → String → Nat) (st : MergeState)
    (rec : RawRecord) (src : String) : Option String :=
  if normDoiField rec ≠ "" then some ("doi:" ++ normDoiField rec)
  else if pmidField rec ≠ "" then some ("pmid:" ++ pmidField rec)
  else if putCodeField rec ≠ "" ∧ src = "orcid" then some ("orcid:" ++ putCodeField rec)
  else fuzzyResolve scorer st.titles (norm (titleField rec))

/-- The fresh fuzzy key `f"t:{len(canon)+1}"` (line 61). -/
def mintKey (st : MergeState) : String := "t:" ++ toString (st.canon.length + 1)

/-- The default record built when the key is not yet in `canon`
(lines 64-70): title, doi, pmid, url are prefilled from the incoming row,
the remaining fields start empty, sources and provenance start empty. -/
def newBase (rec : RawRecord) (key : String) : CanonRecord :=
  ⟨key, titleField rec, "", "", "", "", normDoiField rec, pmidField rec,
   urlField rec, [], []⟩

/-- `set_field` (lines 75-85): skip empty values; fill empty fields
(recording provenance); otherwise override only free-text fields with a
strictly longer value from a source of weight at least 3. -/
def set_field (w : Nat) (src : String) (f : Field) (value : String)
    (base : CanonRecord) : CanonRecord :=
  if value = "" then base
  else if base.get f = "" then (base.set f value).setProv f src
  else if isFreeText f = true ∧ (base.get f).length < value.length ∧ 3 ≤ w then
    (base.set f value).setProv f src
  else base

/-- The eight (field, value) pairs passed to `set_field` by `add`
(lines 87-94), in source order. -/
def fieldWrites (rec : RawRecord) : List (Field × String) :=
  [(.title, titleField rec), (.doi, normDoiField rec), (.pmid, pmidField rec),
   (.url, urlField rec), (.journal, journalField rec), (.venue, venueField rec),
   (.authors, authorsField rec), (.year, yearField rec)]

/-- The eight `set_field` calls of `add` (lines 87-94), in source order. -/
def applyFields (w : Nat) (src : String) (rec : RawRecord)
    (base : CanonRecord) : CanonRecord :=
  (fieldWrites rec).foldl (fun b p => set_field w src p.1 p.2 b) base

/-- Field fusion plus `base["sources"].add(src)` (lines 87-96). -/
def mergeInto (w : Nat) (src : String) (rec : RawRecord)
    (base : CanonRecord) : CanonRecord :=
  let b := applyFields w src rec base
  b.withSources (addSource src b.sources)

/-- `add(rec, src)` (lines 41-97): resolve the key (minting a fresh fuzzy
key and recording its normalized title when the chain fails), fetch or
create the base record, fuse fields, and store it back under the key. -/
def add (scorer : String → String → Nat) (st : MergeState)
    (rec : RawRecord) (src : String) : MergeState :=
  match resolveKey scorer st rec src with
  | some key =>
    ⟨setA key (mergeInto (weight src) src rec
        ((findA key st.canon).getD (newBase rec key))) st.canon,
     st.titles⟩
  | none =>
    let key := mintKey st
    ⟨setA key (mergeInto (weight src) src rec
        ((findA key st.canon).getD (newBase rec key))) st.canon,
     st.titles ++ [(norm (titleField rec), key)]⟩

/-- Process a batch of (row, source) pairs in order, starting empty
(the harvest loop of `merge`, lines 99-102, flattened). -/
def run (scorer : String → String → Nat)
    (recs : List (RawRecord × String)) : MergeState :=
  recs.foldl (fun st p => add scorer st p.1 p.2) emptyState

/-- A scorer that never matches anything (used for concrete batches whose
records all carry identifiers, where the scorer is never consulted). -/
def scorer0 : String → String → Nat := fun _ _ => 0

/-! ### The same code with a fallible scorer

RapidFuzz lives outside the repository; a raised exception inside
`fuzz.token_sort_ratio` reaches the `process.extractOne` call in `add`,
which has no `try`/`except` around it.  The following definitions embed
exactly the same code with the scorer in the `Except` monad, so that this
propagation is part of the model. -/

def extractOneEAux {ε : Type} (scorer : String → String → Except ε Nat)
    (q : String) : List String → Nat → Nat × Nat → Except ε (Nat × Nat)
  | [], _, best => .ok best
  | c :: cs, i, best =>
    match scorer q c with
    | .error e => .error e
    | .ok sc =>
      if sc > best.1 then extractOneEAux scorer q cs (i + 1) (sc, i)
      else extractOneEAux scorer q cs (i + 1) best

def extractOneE {ε : Type} (scorer : String → String → Except ε Nat)
    (q : String) : List String → Except ε (Option (Nat × Nat))
  | [] => .ok none
  | c :: cs =>
    match scorer q c with
    | .error e => .error e
    | .ok sc =>
      match extractOneEAux scorer q cs 1 (sc, 0) with
      | .error e => .error e
      | .ok r => .ok (some r)

def fuzzyResolveE {ε : Type} (scorer : String → String → Except ε Nat)
    (titles : List (String × String)) (q : String) : Except ε (Option String) :=
  match titles with
  | [] => .ok none
  | _ :: _ =>
    match extractOneE scorer q (titles.map Prod.fst) with
    | .error e => .error e
    | .ok (some (score, idx)) =>
      if 92 ≤ score then .ok (some ((titles.getD idx ("", "")).2)) else .ok none
    | .ok none => .ok none

def resolveKeyE {ε : Type} (scorer : String → String → Except ε Nat)
    (st : MergeState) (rec : RawRecord) (src : String) : Except ε (Option String) :=
  if normDoiField rec ≠ "" then .ok (some ("doi:" ++ normDoiField rec))
  else if pmidField rec ≠ "" then .ok (some ("pmid:" ++ pmidField rec))
  else if putCodeField rec ≠ "" ∧ src = "orcid" then .ok (some ("orcid:" ++ putCodeField rec))
  else fuzzyResolveE scorer st.titles (norm (titleField rec))

/-- `add` with a fallible scorer: a scorer exception propagates out. -/
def addE {ε : Type} (scorer : String → String → Except ε Nat) (st : MergeState)
    (rec : RawRecord) (src : String) : Except ε MergeState :=
  match resolveKeyE scorer st rec src with
  | .error e => .error e
  | .ok (some key) =>
    .ok ⟨setA key (mergeInto (weight src) src rec
        ((findA key st.canon).getD (newBase rec key))) st.canon,
      st.titles⟩
  | .ok none =>
    .ok ⟨setA (mintKey st) (mergeInto (weight src) src rec
        ((findA (mintKey st) st.canon).getD (newBase rec (mintKey st)))) st.canon,
      st.titles ++ [(norm (titleField rec), mintKey st)]⟩

/-- The batch loop with a fallible scorer, from a given state: the first
exception aborts the remaining records. -/
def runFromE {ε : Type} (scorer : String → String → Except ε Nat)
    (st : MergeState) : List (RawRecord × String) → Except ε MergeState
  | [] => .ok st
  | p :: rest =>
    match addE scorer st p.1 p.2 with
    | .error e => .error e
    | .ok st' => runFromE scorer st' rest

/-- The batch loop with a fallible scorer, starting empty. -/
def runE {ε : Type} (scorer : String → String → Except ε Nat)
    (recs : List (RawRecord × String)) : Except ε MergeState :=
  runFromE scorer emptyState recs

/-! ### Association-list lemmas -/

theorem findA_setA_self {κ α : Type} [DecidableEq κ] (k : κ) (v : α) :
    ∀ l : List (κ × α), findA k (setA k v l) = some v
  | [] => by simp [findA, setA]
  | (k', v') :: rest => by
    by_cases h : k' = k
    · simp [setA, h, findA]
    · simp [setA, h, findA, findA_setA_self k v rest]

theorem findA_setA_ne {κ α : Type} [DecidableEq κ] {k k' : κ} (hne : k' ≠ k) (v : α) :
    ∀ l : List (κ × α), findA k' (setA k v l) = findA k' l
  | [] => by
    have hk : k ≠ k' := fun h => hne h.symm
    simp [findA, setA, hk]
  | (k'', v'') :: rest => by
    by_cases h : k'' = k
    · subst h
      have hk : k'' ≠ k' := fun h => hne h.symm
      simp [setA, findA, hk]
    · simp [setA, h, findA, findA_setA_ne hne v rest]

theorem setA_not_mem {κ α : Type} [DecidableEq κ] {k : κ} (v : α) :
    ∀ {l : List (κ × α)}, k ∉ l.map Prod.fst → setA k v l = l ++ [(k, v)]
  | [], _ => rfl
  | (k', v') :: rest, h => by
    have h1 : k' ≠ k := fun he => h (by simp [he])
    have h2 : k ∉ rest.map Prod.fst := fun hm => h (by simp [hm])
    simp [setA, h1, setA_not_mem v h2]

theorem map_fst_setA_mem {κ α : Type} [DecidableEq κ] {k : κ} (v : α) :
    ∀ {l : List (κ × α)}, k ∈ l.map Prod.fst →
      (setA k v l).map Prod.fst = l.map Prod.fst
  | [], h => by simp at h
  | (k', v') :: rest, h => by
    by_cases h1 : k' = k
    · simp [setA, h1]
    · have h2 : k ∈ rest.map Prod.fst := by
        rcases List.mem_map.mp h with ⟨p, hp, he⟩
        rcases List.mem_cons.mp hp with h3 | h3
        · rw [h3] at he
          exact absurd he h1
        · exact List.mem_map.mpr ⟨p, h3, he⟩
      simp [setA, h1, map_fst_setA_mem v h2]

theorem findA_eq_none_of_not_mem {κ α : Type} [DecidableEq κ] {k : κ} :
    ∀ {l : List (κ × α)}, k ∉ l.map Prod.fst → findA k l = none
  | [], _ => rfl
  | (k', v') :: rest, h => by
    have h1 : k' ≠ k := fun he => h (by simp [he])
    have h2 : k ∉ rest.map Prod.fst := fun hm => h (by simp [hm])
    simp [findA, h1, findA_eq_none_of_not_mem h2]

theorem mem_of_findA_some {κ α : Type} [DecidableEq κ] {k : κ} {v : α} :
    ∀ {l : List (κ × α)}, findA k l = some v → k ∈ l.map Prod.fst := by
  intro l h
  by_contra hmem
  rw [findA_eq_none_of_not_mem hmem] at h
  exact Option.noConfusion h

theorem mem_map_fst_setA {κ α : Type} [DecidableEq κ] {k k' : κ} (v : α)
    {l : List (κ × α)} (h : k' ∈ l.map Prod.fst) :
    k' ∈ (setA k v l).map Prod.fst := by
  by_cases hm : k ∈ l.map Prod.fst
  · rw [map_fst_setA_mem v hm]; exact h
  · rw [setA_not_mem v hm, List.map_append]
    exact List.mem_append_left _ h

theorem getD_mem {α : Type} (d : α) :
    ∀ (l : List α) (i : Nat), i < l.length → l.getD i d ∈ l
  | [], i, h => by simp at h
  | a :: rest, 0, _ => by simp
  | a :: rest, i + 1, h => by
    have hi : i < rest.length := by simpa using h
    have he : (a :: rest).getD (i + 1) d = rest.getD i d := rfl
    rw [he]
    exact List.mem_cons_of_mem a (getD_mem d rest i hi)

/-! ### CanonRecord component lemmas -/

theorem get_set_self (r : CanonRecord) (f : Field) (v : String) :
    (r.set f v).get f = v := by cases f <;> rfl

theorem get_set_ne (r : CanonRecord) {f g : Field} (h : g ≠ f) (v : String) :
    (r.set g v).get f = r.get f := by
  cases f <;> cases g <;> first | rfl | exact absurd rfl h

theorem get_setProv (r : CanonRecord) (f : Field) (src : String) (g : Field) :
    (r.setProv f src).get g = r.get g := by cases g <;> rfl

theorem get_withSources (r : CanonRecord) (s : List String) (g : Field) :
    (r.withSources s).get g = r.get g := by cases g <;> rfl

theorem sources_set (r : CanonRecord) (f : Field) (v : String) :
    (r.set f v).sources = r.sources := by cases f <;> rfl

theorem sources_setProv (r : CanonRecord) (f : Field) (src : String) :
    (r.setProv f src).sources = r.sources := rfl

theorem provenance_set (r : CanonRecord) (f : Field) (v : String) :
    (r.set f v).provenance = r.provenance := by cases f <;> rfl

theorem provenance_setProv (r : CanonRecord) (f : Field) (src : String) :
    (r.setProv f src).provenance = setA f src r.provenance := rfl

/-! ### set_field lemmas -/

theorem set_field_empty (w : Nat) (src : String) (f : Field) (base : CanonRecord) :
    set_field w src f "" base = base := by simp [set_field]

/-- `set_field` either leaves the record unchanged or performs the
write-with-provenance. -/
theorem set_field_cases (w : Nat) (src : String) (f : Field) (v : String)
    (base : CanonRecord) :
    set_field w src f v base = base ∨
      (set_field w src f v base = (base.set f v).setProv f src ∧ v ≠ "") := by
  unfold set_field
  split
  · exact Or.inl rfl
  next hv =>
    split
    · exact Or.inr ⟨rfl, hv⟩
    split
    · exact Or.inr ⟨rfl, hv⟩
    · exact Or.inl rfl

theorem set_field_sources (w : Nat) (src : String) (f : Field) (v : String)
    (base : CanonRecord) : (set_field w src f v base).sources = base.sources := by
  rcases set_field_cases w src f v base with h | ⟨h, -⟩ <;> rw [h]
  simp [sources_setProv, sources_set]

theorem set_field_get_other {f g : Field} (h : g ≠ f) (w : Nat) (src v : String)
    (base : CanonRecord) : (set_field w src g v base).get f = base.get f := by
  rcases set_field_cases w src g v base with h1 | ⟨h1, -⟩ <;> rw [h1]
  rw [get_setProv, get_set_ne _ h]

theorem set_field_keep_nonfree {f : Field} (hf : isFreeText f = false)
    {base : CanonRecord} (hb : base.get f ≠ "") (w : Nat) (src v : String) :
    (set_field w src f v base).get f = base.get f := by
  by_cases hv : v = ""
  · rw [hv, set_field_empty]
  · unfold set_field
    rw [if_neg hv, if_neg hb, if_neg (by simp [hf])]

theorem set_field_preserve (w : Nat) (src : String) (g : Field) (v : String)
    (base : CanonRecord) {f : Field} (hf : isFreeText f = false)
    (hb : base.get f ≠ "") : (set_field w src g v base).get f = base.get f := by
  by_cases hgf : g = f
  · subst hgf; exact set_field_keep_nonfree hf hb w src v
  · exact set_field_get_other hgf w src v base

theorem set_field_fill {f : Field} {base : CanonRecord} {v : String}
    (hv : v ≠ "") (hb : base.get f = "") (w : Nat) (src : String) :
    (set_field w src f v base).get f = v := by
  unfold set_field
  rw [if_neg hv, if_pos hb, get_setProv, get_set_self]

/-! ### applyFields / mergeInto lemmas -/

theorem foldl_set_field_sources (w : Nat) (src : String) :
    ∀ (ps : List (Field × String)) (base : CanonRecord),
      (ps.foldl (fun b p => set_field w src p.1 p.2 b) base).sources = base.sources
  | [], _ => rfl
  | p :: rest, base => by
    rw [List.foldl_cons, foldl_set_field_sources w src rest, set_field_sources]

theorem foldl_set_field_preserve (w : Nat) (src : String) {f : Field}
    (hf : isFreeText f = false) :
    ∀ (ps : List (Field × String)) (base : CanonRecord), base.get f ≠ "" →
      (ps.foldl (fun b p => set_field w src p.1 p.2 b) base).get f = base.get f
  | [], _, _ => rfl
  | p :: rest, base, hb => by
    rw [List.foldl_cons]
    have hstep : (set_field w src p.1 p.2 base).get f = base.get f :=
      set_field_preserve w src p.1 p.2 base hf hb
    rw [foldl_set_field_preserve w src hf rest _ (by rw [hstep]; exact hb), hstep]

theorem applyFields_sources (w : Nat) (src : String) (rec : RawRecord)
    (base : CanonRecord) : (applyFields w src rec base).sources = base.sources :=
  foldl_set_field_sources w src (fieldWrites rec) base

theorem applyFields_preserve (w : Nat) (src : String) (rec : RawRecord)
    (base : CanonRecord) {f : Field} (hf : isFreeText f = false)
    (hb : base.get f ≠ "") : (applyFields w src rec base).get f = base.get f :=
  foldl_set_field_preserve w src hf (fieldWrites rec) base hb

theorem mergeInto_sources (w : Nat) (src : String) (rec : RawRecord)
    (base : CanonRecord) :
    (mergeInto w src rec base).sources = addSource src base.sources := by
  unfold mergeInto
  show (addSource src (applyFields w src rec base).sources) = _
  rw [applyFields_sources]

theorem mergeInto_get_preserve (w : Nat) (src : String) (rec : RawRecord)
    (base : CanonRecord) {f : Field} (hf : isFreeText f = false)
    (hb : base.get f ≠ "") : (mergeInto w src rec base).get f = base.get f := by
  unfold mergeInto
  rw [get_withSources, applyFields_preserve w src rec base hf hb]

theorem mem_addSource_self (src : String) (l : List String) :
    src ∈ addSource src l := by
  unfold addSource
  split
  · assumption
  · simp

theorem mem_addSource_of_mem {s src : String} {l : List String} (h : s ∈ l) :
    s ∈ addSource src l := by
  unfold addSource
  split
  · exact h
  · exact List.mem_append_left _ h

/-! ### add shape lemmas -/

/-- The key under which `add` stores the merged record. -/
def addKey (scorer : String → String → Nat) (st : MergeState)
    (rec : RawRecord) (src : String) : String :=
  (resolveKey scorer st rec src).getD (mintKey st)

theorem add_canon_eq (scorer : String → String → Nat) (st : MergeState)
    (rec : RawRecord) (src : String) :
    (add scorer st rec src).canon =
      setA (addKey scorer st rec src)
        (mergeInto (weight src) src rec
          ((findA (addKey scorer st rec src) st.canon).getD
            (newBase rec (addKey scorer st rec src)))) st.canon := by
  unfold add addKey
  cases resolveKey scorer st rec src <;> rfl

theorem add_titles_some {scorer : String → String → Nat} {st : MergeState}
    {rec : RawRecord} {src : String} {k : String}
    (h : resolveKey scorer st rec src = some k) :
    (add scorer st rec src).titles = st.titles := by
  unfold add
  rw [h]

theorem add_titles_none {scorer : String → String → Nat} {st : MergeState}
    {rec : RawRecord} {src : String}
    (h : resolveKey scorer st rec src = none) :
    (add scorer st rec src).titles =
      st.titles ++ [(norm (titleField rec), mintKey st)] := by
  unfold add
  rw [h]

theorem addKey_some {scorer : String → String → Nat} {st : MergeState}
    {rec : RawRecord} {src : String} {k : String}
    (h : resolveKey scorer st rec src = some k) :
    addKey scorer st rec src = k := by
  unfold addKey
  rw [h]
  rfl

theorem addKey_none {scorer : String → String → Nat} {st : MergeState}
    {rec : RawRecord} {src : String}
    (h : resolveKey scorer st rec src = none) :
    addKey scorer st rec src = mintKey st := by
  unfold addKey
  rw [h]
  rfl

/-! ### extractOne lemmas -/

theorem extractOneAux_cons (scorer : String → String → Nat) (q c : String)
    (cs : List String) (i : Nat) (best : Nat × Nat) :
    extractOneAux scorer q (c :: cs) i best =
      if scorer q c > best.1 then extractOneAux scorer q cs (i + 1) (scorer q c, i)
      else extractOneAux scorer q cs (i + 1) best := rfl

theorem extractOneAux_fst (scorer : String → String → Nat) (q : String) :
    ∀ (cs : List String) (i : Nat) (best : Nat × Nat),
      (extractOneAux scorer q cs i best).1 =
        cs.foldl (fun m c => max m (scorer q c)) best.1
  | [], _, _ => rfl
  | c :: cs, i, best => by
    rw [List.foldl_cons]
    by_cases h : scorer q c > best.1
    · rw [extractOneAux_cons, if_pos h]
      rw [extractOneAux_fst scorer q cs (i + 1) (scorer q c, i)]
      rw [max_eq_right (le_of_lt h)]
    · rw [extractOneAux_cons, if_neg h]
      rw [extractOneAux_fst scorer q cs (i + 1) best]
      rw [max_eq_left (not_lt.mp h)]

theorem foldl_max_init_le (g : String → Nat) :
    ∀ (l : List String) (a : Nat), a ≤ l.foldl (fun m c => max m (g c)) a
  | [], a => le_refl a
  | c :: cs, a => by
    rw [List.foldl_cons]
    exact le_trans (le_max_left a (g c)) (foldl_max_init_le g cs _)

theorem foldl_max_mem_le (g : String → Nat) :
    ∀ (l : List String) (a : Nat) (x : String), x ∈ l →
      g x ≤ l.foldl (fun m c => max m (g c)) a
  | [], _, _, hx => absurd hx (List.not_mem_nil _)
  | c :: cs, a, x, hx => by
    rw [List.foldl_cons]
    rcases List.mem_cons.mp hx with h | h
    · subst h
      exact le_trans (le_max_right a (g x)) (foldl_max_init_le g cs _)
    · exact foldl_max_mem_le g cs _ x h

theorem extractOneAux_result (scorer : String → String → Nat) (q : String) :
    ∀ (cs : List String) (i : Nat) (best : Nat × Nat),
      extractOneAux scorer q cs i best = best ∨
        ∃ j, j < cs.length ∧
          extractOneAux scorer q cs i best = (scorer q (cs.getD j ""), i + j)
  | [], _, _ => Or.inl rfl
  | c :: cs, i, best => by
    by_cases h : scorer q c > best.1
    · rw [extractOneAux_cons, if_pos h]
      rcases extractOneAux_result scorer q cs (i + 1) (scorer q c, i) with h1 | ⟨j, hj, h1⟩
      · exact Or.inr ⟨0, by simp, by rw [h1]; simp⟩
      · refine Or.inr ⟨j + 1, by simp [Nat.succ_lt_succ hj], ?_⟩
        rw [h1]
        have he : (c :: cs).getD (j + 1) "" = cs.getD j "" := rfl
        rw [he]
        congr 1
        omega
    · rw [extractOneAux_cons, if_neg h]
      rcases extractOneAux_result scorer q cs (i + 1) best with h1 | ⟨j, hj, h1⟩
      · exact Or.inl h1
      · refine Or.inr ⟨j + 1, by simp [Nat.succ_lt_succ hj], ?_⟩
        rw [h1]
        have he : (c :: cs).getD (j + 1) "" = cs.getD j "" := rfl
        rw [he]
        congr 1
        omega

/-- Soundness of the `extractOne` model: the returned index is in range,
its choice scores the returned score, and that score is maximal. -/
theorem extractOne_spec {scorer : String → String → Nat} {q : String}
    {l : List String} {sc idx : Nat}
    (h : extractOne scorer q l = some (sc, idx)) :
    idx < l.length ∧ scorer q (l.getD idx "") = sc ∧ ∀ x ∈ l, scorer q x ≤ sc := by
  match l with
  | [] => exact Option.noConfusion h
  | c :: cs =>
    have he : extractOneAux scorer q cs 1 (scorer q c, 0) = (sc, idx) := by
      have := h
      unfold extractOne at this
      exact Option.some.inj this
    have hfst : sc = cs.foldl (fun m x => max m (scorer q x)) (scorer q c) := by
      have := extractOneAux_fst scorer q cs 1 (scorer q c, 0)
      rw [he] at this
      exact this
    have hmax : ∀ x ∈ c :: cs, scorer q x ≤ sc := by
      intro x hx
      rcases List.mem_cons.mp hx with h1 | h1
      · subst h1
        rw [hfst]
        exact foldl_max_init_le _ cs _
      · rw [hfst]
        exact foldl_max_mem_le _ cs _ x h1
    rcases extractOneAux_result scorer q cs 1 (scorer q c, 0) with h1 | ⟨j, hj, h1⟩
    · rw [he] at h1
      obtain ⟨hsc, hidx⟩ := Prod.mk.inj h1
      subst hidx
      exact ⟨by simp, by rw [show (c :: cs).getD 0 "" = c from rfl, hsc], hmax⟩
    · rw [he] at h1
      obtain ⟨hsc, hidx⟩ := Prod.mk.inj h1
      subst hidx
      refine ⟨by simp; omega, ?_, hmax⟩
      have he2 : (c :: cs).getD (1 + j) "" = cs.getD j "" := by
        have : 1 + j = j + 1 := by omega
        rw [this]
        rfl
      rw [he2, hsc]

theorem extractOne_ne_nil (scorer : String → String → Nat) (q : String)
    (c : String) (cs : List String) :
    ∃ sc idx, extractOne scorer q (c :: cs) = some (sc, idx) :=
  ⟨_, _, rfl⟩

/-! ### fuzzyResolve lemmas -/

theorem fuzzyResolve_nil (scorer : String → String → Nat) (q : String) :
    fuzzyResolve scorer [] q = none := rfl

theorem fuzzyResolve_of_extract {scorer : String → String → Nat} {q : String}
    {titles : List (String × String)} {sc idx : Nat}
    (hne : titles ≠ [])
    (h : extractOne scorer q (titles.map Prod.fst) = some (sc, idx)) :
    fuzzyResolve scorer titles q =
      if 92 ≤ sc then some ((titles.getD idx ("", "")).2) else none := by
  match titles with
  | [] => exact absurd rfl hne
  | t :: ts =>
    unfold fuzzyResolve
    rw [h]

theorem fuzzyResolve_some_mem {scorer : String → String → Nat} {q : String}
    {titles : List (String × String)} {k : String}
    (h : fuzzyResolve scorer titles q = some k) :
    ∃ p ∈ titles, p.2 = k := by
  match titles with
  | [] => exact Option.noConfusion h
  | t :: ts =>
    rcases hex : extractOne scorer q ((t :: ts).map Prod.fst) with - | ⟨sc, idx⟩
    · rcases extractOne_ne_nil scorer q t.1 (ts.map Prod.fst) with ⟨sc, idx, h2⟩
      rw [show ((t :: ts).map Prod.fst) = t.1 :: ts.map Prod.fst from rfl, h2] at hex
      exact Option.noConfusion hex
    · rw [fuzzyResolve_of_extract (by simp) hex] at h
      by_cases hsc : 92 ≤ sc
      · rw [if_pos hsc] at h
        have hidx : idx < (t :: ts).length := by
          have := (extractOne_spec hex).1
          simpa using this
        refine ⟨(t :: ts).getD idx ("", ""), getD_mem ("", "") (t :: ts) idx hidx, ?_⟩
        exact Option.some.inj h
      · rw [if_neg hsc] at h
        exact Option.noConfusion h

/-! ### resolveKey lemmas -/

theorem resolveKey_doi {scorer : String → String → Nat} {st : MergeState}
    {rec : RawRecord} {src : String} (h : normDoiField rec ≠ "") :
    resolveKey scorer st rec src = some ("doi:" ++ normDoiField rec) := by
  unfold resolveKey
  rw [if_pos h]

theorem resolveKey_pmid {scorer : String → String → Nat} {st : MergeState}
    {rec : RawRecord} {src : String} (hd : normDoiField rec = "")
    (hp : pmidField rec ≠ "") :
    resolveKey scorer st rec src = some ("pmid:" ++ pmidField rec) := by
  unfold resolveKey
  rw [if_neg (by simp [hd]), if_pos hp]

theorem resolveKey_orcid {scorer : String → String → Nat} {st : MergeState}
    {rec : RawRecord} {src : String} (hd : normDoiField rec = "")
    (hp : pmidField rec = "") (hc : putCodeField rec ≠ "") (hs : src = "orcid") :
    resolveKey scorer st rec src = some ("orcid:" ++ putCodeField rec) := by
  unfold resolveKey
  rw [if_neg (by simp [hd]), if_neg (by simp [hp]), if_pos ⟨hc, hs⟩]

theorem resolveKey_fuzzy {scorer : String → String → Nat} {st : MergeState}
    {rec : RawRecord} {src : String} (hd : normDoiField rec = "")
    (hp : pmidField rec = "") (hc : putCodeField rec = "" ∨ src ≠ "orcid") :
    resolveKey scorer st rec src =
      fuzzyResolve scorer st.titles (norm (titleField rec)) := by
  unfold resolveKey
  rw [if_neg (by simp [hd]), if_neg (by simp [hp]), if_neg ?_]
  rcases hc with h | h
  · exact fun hand => hand.1 h
  · exact fun hand => h hand.2

/-! ### Injectivity of the decimal printer used by `mintKey`

`mintKey` embeds `f"t:{len(canon)+1}"`; freshness of minted keys rests on
distinct ordinals printing to distinct strings, i.e. on `Nat.repr` being
injective, proved here via a clean most-significant-first digit list. -/

/-- Decimal digit characters of `n`, most significant first. -/
def decDigits (n : Nat) : List Char :=
  if _ : n < 10 then [Nat.digitChar n]
  else decDigits (n / 10) ++ [Nat.digitChar (n % 10)]
termination_by n
decreasing_by exact Nat.div_lt_self (by omega) (by omega)

theorem decDigits_ne_nil (n : Nat) : decDigits n ≠ [] := by
  rw [decDigits]
  split
  · simp
  · simp

theorem toDigitsCore_eq_decDigits :
    ∀ (fuel n : Nat) (ds : List Char), n < fuel →
      Nat.toDigitsCore 10 fuel n ds = decDigits n ++ ds := by
  intro fuel
  induction fuel with
  | zero => intro n ds h; omega
  | succ f ih =>
    intro n ds h
    show (if n / 10 = 0 then Nat.digitChar (n % 10) :: ds
          else Nat.toDigitsCore 10 f (n / 10) (Nat.digitChar (n % 10) :: ds)) =
      decDigits n ++ ds
    by_cases h10 : n / 10 = 0
    · have hn : n < 10 := by omega
      rw [if_pos h10, decDigits, dif_pos hn, Nat.mod_eq_of_lt hn]
      rfl
    · have hn : ¬n < 10 := by
        intro hlt
        exact h10 (Nat.div_eq_of_lt hlt)
      rw [if_neg h10, decDigits, dif_neg hn]
      have hdiv : n / 10 < f := by
        have h1 : n / 10 < n := Nat.div_lt_self (by omega) (by omega)
        omega
      rw [ih (n / 10) (Nat.digitChar (n % 10) :: ds) hdiv]
      simp

theorem repr_eq_decDigits (n : Nat) : Nat.repr n = (decDigits n).asString := by
  show (Nat.toDigits 10 n).asString = (decDigits n).asString
  rw [show Nat.toDigits 10 n = Nat.toDigitsCore 10 (n + 1) n [] from rfl]
  rw [toDigitsCore_eq_decDigits (n + 1) n [] (Nat.lt_succ_self n)]
  rw [List.append_nil]

theorem digitChar_inj_fin :
    ∀ a b : Fin 10, Nat.digitChar a.val = Nat.digitChar b.val → a = b := by decide

theorem digitChar_inj {a b : Nat} (ha : a < 10) (hb : b < 10)
    (h : Nat.digitChar a = Nat.digitChar b) : a = b := by
  have := digitChar_inj_fin ⟨a, ha⟩ ⟨b, hb⟩ h
  exact congrArg Fin.val this

theorem decDigits_lt {n : Nat} (h : n < 10) :
    decDigits n = [Nat.digitChar n] := by
  conv_lhs => rw [decDigits]
  rw [dif_pos h]

theorem decDigits_ge {n : Nat} (h : ¬n < 10) :
    decDigits n = decDigits (n / 10) ++ [Nat.digitChar (n % 10)] := by
  conv_lhs => rw [decDigits]
  rw [dif_neg h]

theorem decDigits_inj : ∀ n m : Nat, decDigits n = decDigits m → n = m := by
  intro n
  induction n using Nat.strong_induction_on with
  | _ n ih =>
    intro m h
    by_cases hn : n < 10 <;> by_cases hm : m < 10
    · rw [decDigits_lt hn, decDigits_lt hm] at h
      exact digitChar_inj hn hm (List.singleton_inj.mp h)
    · rw [decDigits_lt hn, decDigits_ge hm] at h
      have hlen := congrArg List.length h
      rw [List.length_append] at hlen
      simp only [List.length_singleton] at hlen
      have hz : (decDigits (m / 10)).length = 0 := by omega
      exact absurd (List.length_eq_zero.mp hz) (decDigits_ne_nil (m / 10))
    · rw [decDigits_ge hn, decDigits_lt hm] at h
      have hlen := congrArg List.length h
      rw [List.length_append] at hlen
      simp only [List.length_singleton] at hlen
      have hz : (decDigits (n / 10)).length = 0 := by omega
      exact absurd (List.length_eq_zero.mp hz) (decDigits_ne_nil (n / 10))
    · rw [decDigits_ge hn, decDigits_ge hm] at h
      have hlen : ([Nat.digitChar (n % 10)] : List Char).length =
          ([Nat.digitChar (m % 10)] : List Char).length := rfl
      obtain ⟨h1, h2⟩ := List.append_inj' h hlen
      have hdiv : n / 10 = m / 10 :=
        ih (n / 10) (Nat.div_lt_self (by omega) (by omega)) (m / 10) h1
      have hmod : n % 10 = m % 10 :=
        digitChar_inj (Nat.mod_lt n (by omega)) (Nat.mod_lt m (by omega))
          (List.singleton_inj.mp h2)
      have e1 := Nat.div_add_mod n 10
      have e2 := Nat.div_add_mod m 10
      omega

theorem natRepr_inj {n m : Nat} (h : Nat.repr n = Nat.repr m) : n = m := by
  rw [repr_eq_decDigits, repr_eq_decDigits] at h
  have hd : decDigits n = decDigits m := congrArg String.data h
  exact decDigits_inj n m hd

theorem toString_nat_inj {n m : Nat} (h : toString n = toString m) : n = m :=
  natRepr_inj h

/-! ### Key-shape disjointness -/

theorem string_append_cancel_left {a b c : String} (h : a ++ b = a ++ c) : b = c := by
  have hd : a.data ++ b.data = a.data ++ c.data := by
    have := congrArg String.data h
    simpa [String.data_append] using this
  exact String.ext (List.append_cancel_left hd)

theorem doi_key_ne_t (d s : String) : "doi:" ++ d ≠ "t:" ++ s := by
  intro h
  have h2 : ("doi:" ++ d).data = ("t:" ++ s).data := congrArg String.data h
  rw [String.data_append, String.data_append] at h2
  rw [show ("doi:" : String).data = ['d', 'o', 'i', ':'] from rfl,
    show ("t:" : String).data = ['t', ':'] from rfl] at h2
  simp at h2

theorem pmid_key_ne_t (p s : String) : "pmid:" ++ p ≠ "t:" ++ s := by
  intro h
  have h2 : ("pmid:" ++ p).data = ("t:" ++ s).data := congrArg String.data h
  rw [String.data_append, String.data_append] at h2
  rw [show ("pmid:" : String).data = ['p', 'm', 'i', 'd', ':'] from rfl,
    show ("t:" : String).data = ['t', ':'] from rfl] at h2
  simp at h2

theorem orcid_key_ne_t (c s : String) : "orcid:" ++ c ≠ "t:" ++ s := by
  intro h
  have h2 : ("orcid:" ++ c).data = ("t:" ++ s).data := congrArg String.data h
  rw [String.data_append, String.data_append] at h2
  rw [show ("orcid:" : String).data = ['o', 'r', 'c', 'i', 'd', ':'] from rfl,
    show ("t:" : String).data = ['t', ':'] from rfl] at h2
  simp at h2

theorem t_key_inj {n m : Nat} (h : "t:" ++ toString n = "t:" ++ toString m) :
    n = m :=
  toString_nat_inj (string_append_cancel_left h)

theorem resolveKey_some_shape {scorer : String → String → Nat} {st : MergeState}
    {rec : RawRecord} {src : String} {k : String}
    (h : resolveKey scorer st rec src = some k) :
    (∃ d, k = "doi:" ++ d) ∨ (∃ p, k = "pmid:" ++ p) ∨
      (∃ c, k = "orcid:" ++ c) ∨ (∃ p ∈ st.titles, p.2 = k) := by
  unfold resolveKey at h
  split at h
  · exact Or.inl ⟨_, (Option.some.inj h).symm⟩
  split at h
  · exact Or.inr (Or.inl ⟨_, (Option.some.inj h).symm⟩)
  split at h
  · exact Or.inr (Or.inr (Or.inl ⟨_, (Option.some.inj h).symm⟩))
  · exact Or.inr (Or.inr (Or.inr (fuzzyResolve_some_mem h)))

/-! ### The registry invariant

In every state reachable from the empty state: canon keys are pairwise
distinct; every canon key of fuzzy shape `t:<n>` has `n ≤ |canon|`; and
every entry of `titles` pairs a fuzzy-shaped key that is present in canon. -/

def InvS (st : MergeState) : Prop :=
  (st.canon.map Prod.fst).Nodup ∧
    (∀ k ∈ st.canon.map Prod.fst, ∀ n : Nat,
      k = "t:" ++ toString n → n ≤ st.canon.length) ∧
    (∀ p ∈ st.titles,
      (∃ n : Nat, p.2 = "t:" ++ toString n) ∧ p.2 ∈ st.canon.map Prod.fst)

theorem inv_empty : InvS emptyState := by
  refine ⟨List.nodup_nil, ?_, ?_⟩
  · intro k hk
    simp [emptyState] at hk
  · intro p hp
    simp [emptyState] at hp

theorem mintKey_not_mem {st : MergeState} (hInv : InvS st) :
    mintKey st ∉ st.canon.map Prod.fst := by
  intro hmem
  have := hInv.2.1 (mintKey st) hmem (st.canon.length + 1) rfl
  omega

theorem inv_add (scorer : String → String → Nat) (st : MergeState)
    (rec : RawRecord) (src : String) (hInv : InvS st) :
    InvS (add scorer st rec src) := by
  obtain ⟨hnd, hbound, htitles⟩ := hInv
  rcases hres : resolveKey scorer st rec src with - | k
  · -- fuzzy mint: the fresh key is appended to canon and titles
    have hfresh : mintKey st ∉ st.canon.map Prod.fst :=
      mintKey_not_mem ⟨hnd, hbound, htitles⟩
    have hcanon : (add scorer st rec src).canon =
        st.canon ++ [(mintKey st,
          mergeInto (weight src) src rec
            ((findA (mintKey st) st.canon).getD (newBase rec (mintKey st))))] := by
      rw [add_canon_eq, addKey_none hres]
      exact setA_not_mem _ hfresh
    have htl : (add scorer st rec src).titles =
        st.titles ++ [(norm (titleField rec), mintKey st)] := add_titles_none hres
    have hmap : (add scorer st rec src).canon.map Prod.fst =
        st.canon.map Prod.fst ++ [mintKey st] := by
      rw [hcanon, List.map_append]
      rfl
    have hlen : (add scorer st rec src).canon.length = st.canon.length + 1 := by
      rw [hcanon, List.length_append]
      rfl
    refine ⟨?_, ?_, ?_⟩
    · rw [hmap]
      exact List.Nodup.append hnd (List.nodup_singleton _)
        (by simpa [List.disjoint_singleton] using hfresh)
    · intro k hk n hkn
      rw [hmap] at hk
      rcases List.mem_append.mp hk with hk | hk
      · have := hbound k hk n hkn
        omega
      · have hk2 : k = mintKey st := by simpa using hk
        rw [hk2] at hkn
        have : st.canon.length + 1 = n := t_key_inj hkn
        omega
    · intro p hp
      rw [htl] at hp
      rcases List.mem_append.mp hp with hp | hp
      · obtain ⟨hsh, hmem⟩ := htitles p hp
        exact ⟨hsh, by rw [hmap]; exact List.mem_append_left _ hmem⟩
      · have hp2 : p = (norm (titleField rec), mintKey st) := by simpa using hp
        subst hp2
        refine ⟨⟨st.canon.length + 1, rfl⟩, ?_⟩
        rw [hmap]
        exact List.mem_append_right _ (by simp)
  · -- identifier or fuzzy-reuse key
    have hcanon : (add scorer st rec src).canon =
        setA k (mergeInto (weight src) src rec
          ((findA k st.canon).getD (newBase rec k))) st.canon := by
      rw [add_canon_eq, addKey_some hres]
    have htl : (add scorer st rec src).titles = st.titles := add_titles_some hres
    by_cases hmem : k ∈ st.canon.map Prod.fst
    · have hmap : (add scorer st rec src).canon.map Prod.fst =
          st.canon.map Prod.fst := by
        rw [hcanon, map_fst_setA_mem _ hmem]
      have hlen : (add scorer st rec src).canon.length = st.canon.length := by
        have := congrArg List.length hmap
        simpa [List.length_map] using this
      refine ⟨hmap ▸ hnd, ?_, ?_⟩
      · intro k' hk' n hkn
        rw [hmap] at hk'
        rw [hlen]
        exact hbound k' hk' n hkn
      · intro p hp
        rw [htl] at hp
        obtain ⟨hsh, hm⟩ := htitles p hp
        exact ⟨hsh, by rw [hmap]; exact hm⟩
    · -- a new identifier-shaped key is appended
      have hshape : (∃ d, k = "doi:" ++ d) ∨ (∃ p, k = "pmid:" ++ p) ∨
          (∃ c, k = "orcid:" ++ c) ∨ (∃ p ∈ st.titles, p.2 = k) :=
        resolveKey_some_shape hres
      have hnott : ∀ n : Nat, k ≠ "t:" ++ toString n := by
        intro n hkn
        rcases hshape with ⟨d, hd⟩ | ⟨p, hp⟩ | ⟨c, hc⟩ | ⟨p, hp, hpk⟩
        · exact doi_key_ne_t d (toString n) (hd ▸ hkn)
        · exact pmid_key_ne_t p (toString n) (hp ▸ hkn)
        · exact orcid_key_ne_t c (toString n) (hc ▸ hkn)
        · exact hmem (hpk ▸ (htitles p hp).2)
      have hcanon2 : (add scorer st rec src).canon =
          st.canon ++ [(k, mergeInto (weight src) src rec
            ((findA k st.canon).getD (newBase rec k)))] := by
        rw [hcanon]
        exact setA_not_mem _ hmem
      have hmap : (add scorer st rec src).canon.map Prod.fst =
          st.canon.map Prod.fst ++ [k] := by
        rw [hcanon2, List.map_append]
        rfl
      have hlen : (add scorer st rec src).canon.length = st.canon.length + 1 := by
        rw [hcanon2, List.length_append]
        rfl
      refine ⟨?_, ?_, ?_⟩
      · rw [hmap]
        exact List.Nodup.append hnd (List.nodup_singleton _)
          (by simpa [List.disjoint_singleton] using hmem)
      · intro k' hk' n hkn
        rw [hmap] at hk'
        rw [hlen]
        rcases List.mem_append.mp hk' with hk' | hk'
        · have := hbound k' hk' n hkn
          omega
        · have hk2 : k' = k := by simpa using hk'
          exact absurd (hk2 ▸ hkn) (hnott n)
      · intro p hp
        rw [htl] at hp
        obtain ⟨hsh, hm⟩ := htitles p hp
        exact ⟨hsh, by rw [hmap]; exact List.mem_append_left _ hm⟩

theorem inv_foldl (scorer : String → String → Nat) :
    ∀ (recs : List (RawRecord × String)) (st : MergeState), InvS st →
      InvS (recs.foldl (fun st p => add scorer st p.1 p.2) st)
  | [], _, h => h
  | p :: rest, st, h => by
    rw [List.foldl_cons]
    exact inv_foldl scorer rest _ (inv_add scorer st p.1 p.2 h)

theorem inv_run (scorer : String → String → Nat)
    (recs : List (RawRecord × String)) : InvS (run scorer recs) :=
  inv_foldl scorer recs emptyState inv_empty

/-! ### Exception-propagation lemmas -/

theorem resolveKeyE_fuzzy {ε : Type} {scorer : String → String → Except ε Nat}
    {st : MergeState} {rec : RawRecord} {src : String}
    (hd : normDoiField rec = "") (hp : pmidField rec = "")
    (hc : putCodeField rec = "" ∨ src ≠ "orcid") :
    resolveKeyE scorer st rec src =
      fuzzyResolveE scorer st.titles (norm (titleField rec)) := by
  unfold resolveKeyE
  rw [if_neg (by simp [hd]), if_neg (by simp [hp]), if_neg ?_]
  rcases hc with h | h
  · exact fun hand => hand.1 h
  · exact fun hand => h hand.2

theorem extractOneE_error_head {ε : Type} {scorer : String → String → Except ε Nat}
    {q c : String} {e : ε} (cs : List String) (h : scorer q c = .error e) :
    extractOneE scorer q (c :: cs) = .error e := by
  simp only [extractOneE]
  rw [h]

theorem fuzzyResolveE_error_head {ε : Type} {scorer : String → String → Except ε Nat}
    {q : String} {t : String × String} {e : ε} (rest : List (String × String))
    (h : scorer q t.1 = .error e) :
    fuzzyResolveE scorer (t :: rest) q = .error e := by
  have h1 : extractOneE scorer q ((t :: rest).map Prod.fst) = .error e := by
    rw [show (t :: rest).map Prod.fst = t.1 :: rest.map Prod.fst from rfl]
    exact extractOneE_error_head _ h
  unfold fuzzyResolveE
  rw [h1]

theorem addE_error {ε : Type} {scorer : String → String → Except ε Nat}
    {st : MergeState} {rec : RawRecord} {src : String} {e : ε}
    (h : resolveKeyE scorer st rec src = .error e) :
    addE scorer st rec src = .error e := by
  unfold addE
  rw [h]

theorem runFromE_error {ε : Type} {scorer : String → String → Except ε Nat}
    {st : MergeState} {rec : RawRecord} {src : String} {e : ε}
    (more : List (RawRecord × String)) (h : addE scorer st rec src = .error e) :
    runFromE scorer st ((rec, src) :: more) = .error e := by
  unfold runFromE
  rw [h]

/-! ### Concrete rows used by the claim instances -/

/-- A row carrying only a DOI. -/
def rawDoi (d : String) : RawRecord :=
  ⟨d, "", "", "", "", "", "", "", "", "", "", "", "", ""⟩

/-- A row carrying a title and a DOI. -/
def rawTitleDoi (t d : String) : RawRecord :=
  ⟨d, "", "", "", t, "", "", "", "", "", "", "", "", ""⟩

/-- A row carrying only a title. -/
def rawTitled (t : String) : RawRecord :=
  ⟨"", "", "", "", t, "", "", "", "", "", "", "", "", ""⟩

/-- A row carrying a DOI and a PMID. -/
def rawDoiPmid (d p : String) : RawRecord :=
  ⟨d, "", p, "", "", "", "", "", "", "", "", "", "", ""⟩

/-- A scorer that always matches perfectly. -/
def scorer100 : String → String → Nat := fun _ _ => 100

/-! ## Claim C1 -/

/-- C1 (counterexample): the resolver does not strip DOI URL prefixes — two
rows whose `doi` values differ only by the `https://doi.org/` prefix (as
`norm_doi` of merge_master.py confirms by mapping both to `10.1/x`) receive
two distinct canonical keys instead of one. -/
theorem claim1_counterexample :
    (run scorer0 [(rawDoi "10.1/x", "pubmed"),
        (rawDoi "https://doi.org/10.1/x", "crossref")]).canon.map Prod.fst =
      ["doi:10.1/x", "doi:https://doi.org/10.1/x"] ∧
    norm_doi "https://doi.org/10.1/x" = norm_doi "10.1/x" := by
  constructor
  · decide
  · decide

/-- C1 (amended): the Identity Resolver normalizes `doi` by lowercasing and
trimming only (no URL-prefix stripping); when the result is non-empty the
record is keyed and stored under `doi:<normalized-doi>` and the fuzzy title
registry is untouched. -/
theorem claim1_theorem :
    ∀ (scorer : String → String → Nat) (st : MergeState) (rec : RawRecord)
      (src : String), normDoiField rec ≠ "" →
      resolveKey scorer st rec src = some ("doi:" ++ normDoiField rec) ∧
      (∃ r, findA ("doi:" ++ normDoiField rec) (add scorer st rec src).canon =
          some r ∧ src ∈ r.sources) ∧
      (add scorer st rec src).titles = st.titles := by
  intro scorer st rec src h
  have hres : resolveKey scorer st rec src = some ("doi:" ++ normDoiField rec) :=
    resolveKey_doi h
  refine ⟨hres, ?_, add_titles_some hres⟩
  rw [add_canon_eq, addKey_some hres]
  refine ⟨_, findA_setA_self _ _ _, ?_⟩
  rw [mergeInto_sources]
  exact mem_addSource_self _ _

/-- C1 (witness): a concrete row with doi " 10.1/X " resolves to key
`doi:10.1/x`. -/
theorem claim1_witness :
    resolveKey scorer0 emptyState (rawDoi " 10.1/X ") "pubmed" =
        some "doi:10.1/x" ∧
      ∃ r, findA "doi:10.1/x"
          (add scorer0 emptyState (rawDoi " 10.1/X ") "pubmed").canon = some r ∧
        "pubmed" ∈ r.sources := by
  have h := claim1_theorem scorer0 emptyState (rawDoi " 10.1/X ") "pubmed"
    (by decide)
  have hn : ("doi:" ++ normDoiField (rawDoi " 10.1/X ")) = "doi:10.1/x" := by
    decide
  rw [hn] at h
  exact ⟨h.1, h.2.1⟩

/-! ## Claim C2 -/

/-- C2: the resolution priority chain — non-empty doi keys `doi:`, else
non-empty pmid keys `pmid:`, else orcid-sourced non-empty put_code keys
`orcid:`, and only otherwise is the fuzzy-title path consulted; a
DOI-bearing record never touches the fuzzy path (its key is independent of
the scorer and of the title registry, and no fuzzy key is minted). -/
theorem claim2_theorem :
    ∀ (scorer : String → String → Nat) (st : MergeState) (rec : RawRecord)
      (src : String),
      (normDoiField rec ≠ "" →
        resolveKey scorer st rec src = some ("doi:" ++ normDoiField rec) ∧
        (add scorer st rec src).titles = st.titles) ∧
      (normDoiField rec = "" → pmidField rec ≠ "" →
        resolveKey scorer st rec src = some ("pmid:" ++ pmidField rec)) ∧
      (normDoiField rec = "" → pmidField rec = "" → putCodeField rec ≠ "" →
        src = "orcid" →
        resolveKey scorer st rec src = some ("orcid:" ++ putCodeField rec)) ∧
      (normDoiField rec = "" → pmidField rec = "" →
        (putCodeField rec = "" ∨ src ≠ "orcid") →
        resolveKey scorer st rec src =
          fuzzyResolve scorer st.titles (norm (titleField rec))) := by
  intro scorer st rec src
  refine ⟨?_, ?_, ?_, ?_⟩
  · intro h
    have hres : resolveKey scorer st rec src = some ("doi:" ++ normDoiField rec) :=
      resolveKey_doi h
    exact ⟨hres, add_titles_some hres⟩
  · intro hd hp
    exact resolveKey_pmid hd hp
  · intro hd hp hc hs
    exact resolveKey_orcid hd hp hc hs
  · intro hd hp hc
    exact resolveKey_fuzzy hd hp hc

/-- C2 (witness): a row with both a DOI and a title resolves by DOI even
when a prior fuzzy-keyed canon has a near-identical title and the scorer
reports a perfect match. -/
theorem claim2_witness :
    resolveKey scorer100
        (run scorer0 [(rawTitled "craniofacial surgery outcome", "pubmed")])
        (rawTitleDoi "Craniofacial Surgery Outcomes" "10.1/ABC") "crossref" =
      some "doi:10.1/abc" ∧
    (add scorer100
        (run scorer0 [(rawTitled "craniofacial surgery outcome", "pubmed")])
        (rawTitleDoi "Craniofacial Surgery Outcomes" "10.1/ABC")
        "crossref").titles =
      (run scorer0 [(rawTitled "craniofacial surgery outcome", "pubmed")]).titles := by
  have h := (claim2_theorem scorer100
    (run scorer0 [(rawTitled "craniofacial surgery outcome", "pubmed")])
    (rawTitleDoi "Craniofacial Surgery Outcomes" "10.1/ABC") "crossref").1
    (by decide)
  have hn : ("doi:" ++
      normDoiField (rawTitleDoi "Craniofacial Surgery Outcomes" "10.1/ABC")) =
      "doi:10.1/abc" := by decide
  rw [hn] at h
  exact h

/-! ## Claim C4 -/

/-- C4: with both values non-empty and different, `set_field` replaces the
stored value iff the field is free text (title/journal/venue/authors), the
incoming value is strictly longer, and the source weight is at least 3 —
and 3 is the median of the configured source weights
(pubmed 5, openalex 4, semanticscholar 3, crossref 2, orcid 1). -/
theorem claim4_theorem :
    ∀ (src : String) (f : Field) (v : String) (base : CanonRecord),
      v ≠ "" → base.get f ≠ "" → v ≠ base.get f →
      (((set_field (weight src) src f v base).get f = v) ↔
        (isFreeText f = true ∧ (base.get f).length < v.length ∧
          3 ≤ weight src)) ∧
      medianNat (sourceOrder.map weight) = 3 := by
  intro src f v base hv hb hne
  constructor
  · constructor
    · intro hgot
      by_contra hcond
      have hsame : set_field (weight src) src f v base = base := by
        unfold set_field
        rw [if_neg hv, if_neg hb, if_neg hcond]
      rw [hsame] at hgot
      exact hne hgot.symm
    · intro hcond
      unfold set_field
      rw [if_neg hv, if_neg hb, if_pos hcond, get_setProv, get_set_self]
  · decide

/-- C4 (witness): semanticscholar (weight 3, the median) may replace a
shorter stored title with a strictly longer one. -/
theorem claim4_witness :
    (((set_field (weight "semanticscholar") "semanticscholar" Field.title
        "a longer title" ⟨"k", "short", "", "", "", "", "", "", "", [], []⟩).get
          Field.title = "a longer title") ↔
      (isFreeText Field.title = true ∧
        ((⟨"k", "short", "", "", "", "", "", "", "", [], []⟩ :
          CanonRecord).get Field.title).length <
          ("a longer title" : String).length ∧
        3 ≤ weight "semanticscholar")) ∧
    medianNat (sourceOrder.map weight) = 3 :=
  claim4_theorem "semanticscholar" Field.title "a longer title"
    ⟨"k", "short", "", "", "", "", "", "", "", [], []⟩
    (by decide) (by decide) (by decide)

/-! ## Claim C5 -/

/-- C5: for the identifier fields doi, pmid, url, year, a non-empty stored
value survives any later merge into the registry unchanged
(first-write-wins). -/
theorem claim5_theorem :
    ∀ (scorer : String → String → Nat) (st : MergeState) (rec : RawRecord)
      (src key : String) (r : CanonRecord) (f : Field),
      (f = Field.doi ∨ f = Field.pmid ∨ f = Field.url ∨ f = Field.year) →
      findA key st.canon = some r → r.get f ≠ "" →
      ∃ r', findA key (add scorer st rec src).canon = some r' ∧
        r'.get f = r.get f := by
  intro scorer st rec src key r f hf hfind hne
  have hfree : isFreeText f = false := by
    rcases hf with h | h | h | h <;> rw [h] <;> rfl
  by_cases hk : addKey scorer st rec src = key
  · rw [add_canon_eq, hk]
    refine ⟨_, findA_setA_self _ _ _, ?_⟩
    rw [hfind]
    show (mergeInto (weight src) src rec r).get f = r.get f
    exact mergeInto_get_preserve _ _ _ _ hfree hne
  · rw [add_canon_eq]
    rw [findA_setA_ne (fun he => hk he.symm) _ st.canon]
    exact ⟨r, hfind, rfl⟩

/-- C5 (witness): merging pmid "111" then pmid "222" under the shared DOI
key leaves pmid = "111". -/
theorem claim5_witness :
    ∃ r', findA "doi:10.1/x"
        (add scorer0 (run scorer0 [(rawDoiPmid "10.1/x" "111", "pubmed")])
          (rawDoiPmid "10.1/x" "222") "crossref").canon = some r' ∧
      r'.get Field.pmid = "111" := by
  obtain ⟨r', h1, h2⟩ := claim5_theorem scorer0
    (run scorer0 [(rawDoiPmid "10.1/x" "111", "pubmed")])
    (rawDoiPmid "10.1/x" "222") "crossref" "doi:10.1/x"
    (mergeInto (weight "pubmed") "pubmed" (rawDoiPmid "10.1/x" "111")
      (newBase (rawDoiPmid "10.1/x" "111") "doi:10.1/x"))
    Field.pmid (Or.inr (Or.inl rfl)) (by decide) (by decide)
  refine ⟨r', h1, ?_⟩
  rw [h2]
  decide

/-! ## Claim C6 -/

/-- C6 (counterexample): the very first row creating a canonical record
prefills title/doi/pmid/url in the base dict, so `set_field` sees them as
already occupied and records no provenance: after one merge the record
holds title "A Title" but its provenance has no entry for title (nor doi),
contradicting the claim that every non-empty field is mapped. -/
theorem claim6_counterexample :
    ((findA "doi:10.1/x"
        (run scorer0 [(rawTitleDoi "A Title" "10.1/x", "pubmed")]).canon).map
      (fun r => (r.title, findA Field.title r.provenance,
        findA Field.doi r.provenance))) =
      some ("A Title", none, none) := by decide

/-- C6 (amended): provenance is updated in lockstep with every `set_field`
write — whenever `set_field` stores a value the field is mapped to the
writing source, and otherwise record and provenance are unchanged — but the
fields prefilled at record creation from the creating row (title, doi,
pmid, url in `newBase`) start with an empty provenance map, so those
initial values carry no provenance entry. -/
theorem claim6_theorem :
    ∀ (w : Nat) (src : String) (f : Field) (v : String) (base : CanonRecord)
      (rec : RawRecord) (key : String),
      (set_field w src f v base = base ∨
        ((set_field w src f v base).get f = v ∧
          findA f (set_field w src f v base).provenance = some src)) ∧
      (newBase rec key).provenance = [] ∧
      (newBase rec key).title = titleField rec ∧
      (newBase rec key).doi = normDoiField rec ∧
      (newBase rec key).pmid = pmidField rec ∧
      (newBase rec key).url = urlField rec := by
  intro w src f v base rec key
  refine ⟨?_, rfl, rfl, rfl, rfl, rfl⟩
  rcases set_field_cases w src f v base with h | ⟨h, -⟩
  · exact Or.inl h
  · right
    rw [h, get_setProv, get_set_self, provenance_setProv, provenance_set]
    exact ⟨rfl, findA_setA_self f src _⟩

/-! ## Claim C7 -/

/-- C7 (counterexample): an all-empty row is not dropped — processing it
against the empty registry mints fuzzy key t:1 and stores an (all-empty)
canonical record, so the registry changes. -/
theorem claim7_counterexample :
    (run scorer0 [(blankRaw, "pubmed")]).canon.map Prod.fst = ["t:1"] := by
  decide

/-- C7 (amended): an all-empty row reaches the Identity Resolver and takes
the fuzzy path: it is merged under some fuzzy key `t:<n>` (a reused one or
a freshly minted one), whose record afterwards lists the row's source. -/
theorem claim7_theorem :
    ∀ (scorer : String → String → Nat) (st : MergeState) (src : String),
      (∀ p ∈ st.titles, ∃ n : Nat, p.2 = "t:" ++ toString n) →
      ∃ (n : Nat) (r : CanonRecord),
        findA ("t:" ++ toString n) (add scorer st blankRaw src).canon =
          some r ∧ src ∈ r.sources := by
  intro scorer st src htitles
  have hd : normDoiField blankRaw = "" := by decide
  have hp : pmidField blankRaw = "" := by decide
  have hc : putCodeField blankRaw = "" := by decide
  have hres := @resolveKey_fuzzy scorer st blankRaw src hd hp (Or.inl hc)
  rcases hfz : fuzzyResolve scorer st.titles (norm (titleField blankRaw))
    with - | k
  · have hnone : resolveKey scorer st blankRaw src = none := by
      rw [hres, hfz]
    refine ⟨st.canon.length + 1,
      mergeInto (weight src) src blankRaw
        ((findA (mintKey st) st.canon).getD (newBase blankRaw (mintKey st))),
      ?_, ?_⟩
    · rw [add_canon_eq, addKey_none hnone]
      exact findA_setA_self _ _ _
    · rw [mergeInto_sources]
      exact mem_addSource_self _ _
  · have hsome : resolveKey scorer st blankRaw src = some k := by
      rw [hres, hfz]
    obtain ⟨p, hpmem, hpk⟩ := fuzzyResolve_some_mem hfz
    obtain ⟨n, hn⟩ := htitles p hpmem
    have hkey : ("t:" ++ toString n) = k := by
      rw [← hn, hpk]
    refine ⟨n,
      mergeInto (weight src) src blankRaw
        ((findA k st.canon).getD (newBase blankRaw k)), ?_, ?_⟩
    · rw [add_canon_eq, addKey_some hsome, hkey]
      exact findA_setA_self _ _ _
    · rw [mergeInto_sources]
      exact mem_addSource_self _ _

/-- C7 (witness): an all-empty row against a registry holding one fuzzy
record is merged under a fuzzy key listing its source. -/
theorem claim7_witness :
    ∃ (n : Nat) (r : CanonRecord),
      findA ("t:" ++ toString n)
        (add scorer0 (run scorer0 [(rawTitled "x", "pubmed")]) blankRaw
          "crossref").canon = some r ∧
      "crossref" ∈ r.sources := by
  apply claim7_theorem
  intro p hp
  have he : (run scorer0 [(rawTitled "x", "pubmed")]).titles = [("x", "t:1")] := by
    decide
  rw [he] at hp
  have hp2 : p = ("x", "t:1") := by simpa using hp
  rw [hp2]
  exact ⟨1, by decide⟩

/-! ## Claim C8 -/

/-- C8: monotone fill — an empty incoming value never changes the record, a
non-empty incoming value fills an empty field; the sources set of every
stored record is preserved by later merges and always gains the merged
row's source tag; and concretely merging {title:"", doi:"10.1/x"} then
{title:"Full Title", doi:"10.1/x"} yields title "Full Title" with both
sources present. -/
theorem claim8_theorem :
    ∀ (w : Nat) (src : String) (f : Field) (v : String) (base : CanonRecord)
      (scorer : String → String → Nat) (st : MergeState) (rec : RawRecord)
      (src' key : String) (r : CanonRecord),
      (set_field w src f "" base = base) ∧
      (v ≠ "" → base.get f = "" → (set_field w src f v base).get f = v) ∧
      (findA key st.canon = some r →
        ∃ r', findA key (add scorer st rec src').canon = some r' ∧
          ∀ s2 ∈ r.sources, s2 ∈ r'.sources) ∧
      (∃ k r', findA k (add scorer st rec src').canon = some r' ∧
        src' ∈ r'.sources) ∧
      (∃ rr, findA "doi:10.1/x"
          (run scorer0 [(rawTitleDoi "" "10.1/x", "pubmed"),
            (rawTitleDoi "Full Title" "10.1/x", "crossref")]).canon = some rr ∧
        rr.title = "Full Title" ∧ "pubmed" ∈ rr.sources ∧
        "crossref" ∈ rr.sources) := by
  intro w src f v base scorer st rec src' key r
  refine ⟨set_field_empty w src f base, fun hv hb => set_field_fill hv hb w src,
    ?_, ?_, ?_⟩
  · intro hfind
    by_cases hk : addKey scorer st rec src' = key
    · rw [add_canon_eq, hk]
      refine ⟨_, findA_setA_self _ _ _, ?_⟩
      intro s2 hs2
      rw [hfind]
      show s2 ∈ (mergeInto (weight src') src' rec r).sources
      rw [mergeInto_sources]
      exact mem_addSource_of_mem hs2
    · rw [add_canon_eq, findA_setA_ne (fun he => hk he.symm) _ st.canon]
      exact ⟨r, hfind, fun s2 hs2 => hs2⟩
  · refine ⟨addKey scorer st rec src',
      mergeInto (weight src') src' rec
        ((findA (addKey scorer st rec src') st.canon).getD
          (newBase rec (addKey scorer st rec src'))), ?_, ?_⟩
    · rw [add_canon_eq]
      exact findA_setA_self _ _ _
    · rw [mergeInto_sources]
      exact mem_addSource_self _ _
  · refine ⟨_, rfl, ?_, ?_, ?_⟩ <;> decide

/-- C8 (witness): a non-empty title fills an empty title slot, and the
sources of a stored record survive a later merge which also contributes
its own tag. -/
theorem claim8_witness :
    (set_field (weight "crossref") "crossref" Field.title "Full Title"
      ⟨"doi:10.1/x", "", "", "", "", "", "10.1/x", "", "", ["pubmed"], []⟩).get
        Field.title = "Full Title" ∧
    (∃ r', findA "doi:10.1/x"
        (add scorer0 (run scorer0 [(rawTitleDoi "" "10.1/x", "pubmed")])
          (rawTitleDoi "Full Title" "10.1/x") "crossref").canon = some r' ∧
      ∀ s2 ∈ (mergeInto (weight "pubmed") "pubmed" (rawTitleDoi "" "10.1/x")
        (newBase (rawTitleDoi "" "10.1/x") "doi:10.1/x")).sources,
        s2 ∈ r'.sources) := by
  constructor
  · exact (claim8_theorem (weight "crossref") "crossref" Field.title
      "Full Title" ⟨"doi:10.1/x", "", "", "", "", "", "10.1/x", "", "",
        ["pubmed"], []⟩ scorer0 emptyState blankRaw "x" "k"
      (newBase blankRaw "k")).2.1 (by decide) (by decide)
  · exact (claim8_theorem 0 "x" Field.title "" (newBase blankRaw "k") scorer0
      (run scorer0 [(rawTitleDoi "" "10.1/x", "pubmed")])
      (rawTitleDoi "Full Title" "10.1/x") "crossref" "doi:10.1/x"
      (mergeInto (weight "pubmed") "pubmed" (rawTitleDoi "" "10.1/x")
        (newBase (rawTitleDoi "" "10.1/x") "doi:10.1/x"))).2.2.1 (by decide)

/-! ## Claim C3 -/

/-- A boundary scorer awarding 92 to one specific title. -/
def scorerHit (hit : String) (sc : Nat) : String → String → Nat :=
  fun _ t => if t = hit then sc else 50

/-- C3: on the fuzzy path the record's normalized title is scored only
against the stored fuzzy titles: `extractOne` returns an in-range index of
a best-scoring stored title, the best key is reused iff that best score is
at least 92 (so exactly 92 merges and 91 does not), any reused key is one
of the stored fuzzy keys, every stored fuzzy key in a reachable state has
the minted shape `t:<n>`, and a failed resolution mints the fresh key
`t:<|canon|+1>` and records the normalized title. -/
theorem claim3_theorem :
    ∀ (scorer : String → String → Nat) (titles : List (String × String))
      (q : String) (sc idx : Nat) (scorer' : String → String → Nat)
      (recs : List (RawRecord × String)) (st : MergeState) (rec : RawRecord)
      (src : String),
      (extractOne scorer q (titles.map Prod.fst) = some (sc, idx) →
        idx < titles.length ∧
        scorer q ((titles.map Prod.fst).getD idx "") = sc ∧
        (∀ p ∈ titles, scorer q p.1 ≤ sc) ∧
        (92 ≤ sc →
          fuzzyResolve scorer titles q = some ((titles.getD idx ("", "")).2)) ∧
        (sc < 92 → fuzzyResolve scorer titles q = none)) ∧
      (∀ k, fuzzyResolve scorer titles q = some k → ∃ p ∈ titles, p.2 = k) ∧
      (∀ p ∈ (run scorer' recs).titles, ∃ n : Nat, p.2 = "t:" ++ toString n) ∧
      (resolveKey scorer st rec src = none →
        (add scorer st rec src).titles =
          st.titles ++ [(norm (titleField rec), mintKey st)] ∧
        mintKey st = "t:" ++ toString (st.canon.length + 1)) := by
  intro scorer titles q sc idx scorer' recs st rec src
  refine ⟨?_, ?_, ?_, ?_⟩
  · intro hex
    have hne : titles ≠ [] := by
      intro hnil
      rw [hnil] at hex
      exact Option.noConfusion hex
    have hspec := extractOne_spec hex
    refine ⟨by simpa [List.length_map] using hspec.1, hspec.2.1, ?_, ?_, ?_⟩
    · intro p hp
      exact hspec.2.2 p.1 (List.mem_map.mpr ⟨p, hp, rfl⟩)
    · intro hge
      rw [fuzzyResolve_of_extract hne hex, if_pos hge]
    · intro hlt
      rw [fuzzyResolve_of_extract hne hex, if_neg (by omega)]
  · intro k h
    exact fuzzyResolve_some_mem h
  · intro p hp
    exact ((inv_run scorer' recs).2.2 p hp).1
  · intro h
    exact ⟨add_titles_none h, rfl⟩

/-- C3 (witness): with stored fuzzy titles [("other","t:1"),
("target title","t:2")], a fake scorer awarding the target exactly 92
reuses key t:2, while the same scorer capped at 91 mints instead
(fuzzyResolve returns none). -/
theorem claim3_witness :
    fuzzyResolve (scorerHit "target title" 92)
        [("other", "t:1"), ("target title", "t:2")] "q" = some "t:2" ∧
    fuzzyResolve (scorerHit "target title" 91)
        [("other", "t:1"), ("target title", "t:2")] "q" = none := by
  constructor
  · exact ((claim3_theorem (scorerHit "target title" 92)
      [("other", "t:1"), ("target title", "t:2")] "q" 92 1 scorer0 []
      emptyState blankRaw "x").1 (by decide)).2.2.2.1 (by decide)
  · exact ((claim3_theorem (scorerHit "target title" 91)
      [("other", "t:1"), ("target title", "t:2")] "q" 91 1 scorer0 []
      emptyState blankRaw "x").1 (by decide)).2.2.2.2 (by decide)

/-! ## Claim C9 -/

/-- A scorer that always raises. -/
def failScorer : String → String → Except String Nat :=
  fun _ _ => Except.error "boom"

/-- C9 (counterexample): with a failing scorer, a batch of two
identifier-less rows aborts with the exception at the second row (the
first minted t:1, the second consults the scorer); the engine does not
degrade to minting a fresh key and does not continue. -/
theorem claim9_counterexample :
    runE failScorer
        [(rawTitled "alpha", "pubmed"), (rawTitled "beta", "crossref")] =
      Except.error "boom" := rfl

/-- C9 (amended): the fuzzy-scoring call sites have no exception handler: a
scorer exception on a record that reaches the fuzzy path propagates out of
`add` unchanged, aborting the whole remaining batch; no fresh fuzzy key is
minted for that record. -/
theorem claim9_theorem :
    ∀ {ε : Type} (scorer : String → String → Except ε Nat) (st : MergeState)
      (rec : RawRecord) (src : String) (e : ε) (t : String × String)
      (rest : List (String × String)) (more : List (RawRecord × String)),
      normDoiField rec = "" → pmidField rec = "" →
      (putCodeField rec = "" ∨ src ≠ "orcid") →
      st.titles = t :: rest →
      scorer (norm (titleField rec)) t.1 = Except.error e →
      addE scorer st rec src = Except.error e ∧
      runFromE scorer st ((rec, src) :: more) = Except.error e := by
  intro ε scorer st rec src e t rest more hd hp hc htl hsc
  have h1 : resolveKeyE scorer st rec src = Except.error e := by
    rw [resolveKeyE_fuzzy hd hp hc, htl]
    exact fuzzyResolveE_error_head rest hsc
  have h2 : addE scorer st rec src = Except.error e := addE_error h1
  exact ⟨h2, runFromE_error more h2⟩

/-- C9 (witness): the failing scorer aborts a concrete batch whose state
already holds one fuzzy title. -/
theorem claim9_witness :
    addE failScorer ⟨[], [("alpha", "t:1")]⟩ (rawTitled "beta") "pubmed" =
        Except.error "boom" ∧
      runFromE failScorer ⟨[], [("alpha", "t:1")]⟩
        [((rawTitled "beta"), "pubmed"), ((rawTitled "gamma"), "pubmed")] =
      Except.error "boom" :=
  claim9_theorem failScorer ⟨[], [("alpha", "t:1")]⟩ (rawTitled "beta")
    "pubmed" "boom" ("alpha", "t:1") [] [((rawTitled "gamma"), "pubmed")]
    (by decide) (by decide) (Or.inl (by decide)) rfl rfl

/-! ## Claim C10 -/

/-- C10: in every state reachable by a run, the registry's keys are
pairwise distinct (one record per key), and the next fresh fuzzy key
`t:<|canon|+1>` is absent both from the registry and from the stored fuzzy
titles, so minting always creates a brand-new canonical record. -/
theorem claim10_theorem :
    ∀ (scorer : String → String → Nat) (recs : List (RawRecord × String)),
      ((run scorer recs).canon.map Prod.fst).Nodup ∧
      findA (mintKey (run scorer recs)) (run scorer recs).canon = none ∧
      mintKey (run scorer recs) ∉ (run scorer recs).titles.map Prod.snd := by
  intro scorer recs
  have hInv := inv_run scorer recs
  refine ⟨hInv.1, findA_eq_none_of_not_mem (mintKey_not_mem hInv), ?_⟩
  intro hmem
  rcases List.mem_map.mp hmem with ⟨p, hp, hpk⟩
  have hm := (hInv.2.2 p hp).2
  rw [hpk] at hm
  exact mintKey_not_mem hInv hm

/-- C10 (witness): a concrete mixed run (an identifier key and a fuzzy
key) has duplicate-free keys and a fresh next mint key. -/
theorem claim10_witness :
    ((run scorer0 [(rawDoi "10.1/x", "pubmed"),
        (rawTitled "alpha", "crossref")]).canon.map Prod.fst).Nodup ∧
    findA (mintKey (run scorer0 [(rawDoi "10.1/x", "pubmed"),
        (rawTitled "alpha", "crossref")]))
      (run scorer0 [(rawDoi "10.1/x", "pubmed"),
        (rawTitled "alpha", "crossref")]).canon = none ∧
    mintKey (run scorer0 [(rawDoi "10.1/x", "pubmed"),
        (rawTitled "alpha", "crossref")]) ∉
      (run scorer0 [(rawDoi "10.1/x", "pubmed"),
        (rawTitled "alpha", "crossref")]).titles.map Prod.snd :=
  claim10_theorem scorer0
    [(rawDoi "10.1/x", "pubmed"), (rawTitled "alpha", "crossref")]

end Eppley
